import Mathlib

/-!
# Verification of the tps-jira-sf-dashboard data pipeline

Shallow embedding of the Salesforce-opportunity data pipeline:
`src/app/api/salesforce/route.ts` (namespace `SF`) and the earlier route
variant in `src/unnamed/part_000` (namespace `V0`), together with theorems
settling the specification claims about parsing, column resolution,
identifier canonicalization, amount normalization, classification and the
multi-strategy source-resolution cascade.

JavaScript strings are modelled as Lean `String`/`List Char`; JS numbers
produced by `parseFloat` are modelled as `Option ℚ` (`none` = `NaN`);
JS objects used as string-to-string records are modelled as association
lists built with an insert-or-overwrite assignment.
-/

/-- Characters treated as whitespace by the embedding of `String.prototype.trim`
and of the `insideQuotes`-independent trimming of CSV fields. -/
def jsWS (c : Char) : Bool := c.isWhitespace

/-- `trim` on a character list: drop whitespace from both ends. -/
def jsTrimL (l : List Char) : List Char :=
  ((l.dropWhile jsWS).reverse.dropWhile jsWS).reverse

/-- Embedding of `String.prototype.trim`. -/
def jsTrim (s : String) : String := ⟨jsTrimL s.data⟩

/-- Embedding of `String.prototype.toLowerCase` (ASCII range; all data the
pipeline compares is ASCII). -/
def jsToLower (s : String) : String := ⟨s.data.map Char.toLower⟩

/-- `lead.isLeadOf text`: does `text` start with `lead`?  (Embedding of
`String.prototype.startsWith` at the character-list level.) -/
def leadMatches : List Char → List Char → Bool
  | _, [] => true
  | [], _ :: _ => false
  | c :: cs, p :: ps => c = p && leadMatches cs ps

/-- Does the pattern `pat` occur contiguously inside `l`?  (Embedding of
`String.prototype.includes` at the character-list level.) -/
def occursIn (l pat : List Char) : Bool :=
  match l with
  | [] => leadMatches [] pat
  | _ :: rest => leadMatches l pat || occursIn rest pat

/-- Embedding of `s.includes(sub)`. -/
def strIncludes (s sub : String) : Bool := occursIn s.data sub.data

/-- Embedding of `s.startsWith(p)`. -/
def strStartsWith (s p : String) : Bool := leadMatches s.data p.data

/-- JS records `Record<string, string>` as association lists
(key order = insertion order, no duplicate keys when built by assignment). -/
abbrev JsRec := List (String × String)

/-- `row[k]` for a key expected to be present (`""` when absent, matching how
the route code treats `undefined` values that reach string positions). -/
def lookupVal (row : JsRec) (k : String) : String :=
  ((row.find? (fun p => p.1 = k)).map (·.2)).getD ""

/-- JS object assignment `row[k] = v`: overwrite in place if the key exists,
otherwise append. -/
def jsSetKey (row : JsRec) (k v : String) : JsRec :=
  if (row.map (·.1)).contains k then
    row.map (fun p => if p.1 = k then (k, v) else p)
  else row ++ [(k, v)]

/-- Digit-string value, most significant first. -/
def digitsVal (l : List Char) : Nat :=
  l.foldl (fun n c => 10 * n + (c.toNat - '0'.toNat)) 0

/-- Model of JS `parseFloat` restricted to inputs without exponent notation or
`Infinity` (every call site first strips all characters other than digits,
`.`, `,`, `-`): skip leading whitespace, optional sign, longest
`digits [. digits]` head; `none` models `NaN`. -/
def parseFloatQ (s : String) : Option ℚ :=
  let l := s.data.dropWhile jsWS
  let sl : ℚ × List Char :=
    match l with
    | '-' :: r => (-1, r)
    | '+' :: r => (1, r)
    | _ => (1, l)
  let ip := sl.2.takeWhile Char.isDigit
  let r1 := sl.2.dropWhile Char.isDigit
  let fp :=
    match r1 with
    | '.' :: r2 => r2.takeWhile Char.isDigit
    | _ => []
  if ip = [] ∧ fp = [] then none
  else some (sl.1 * ((digitsVal ip : ℚ) + (digitsVal fp : ℚ) / (10 : ℚ) ^ fp.length))

/-- The domain entity built by `mapToOpportunity` (`SalesforceOpportunity` in
`src/lib/types.ts`); `amount`/`probability` are nullable numbers. -/
structure Opportunity where
  id : String
  name : String
  stageName : String
  accessMethod : String
  amount : Option ℚ
  closeDate : String
  accountName : String
  ownerName : String
  probability : Option ℚ
  createdDate : String
  lastModifiedDate : String
  url : String
deriving DecidableEq

namespace SF

/-! ## Embedding of `src/app/api/salesforce/route.ts` -/

/-- The checksum alphabet of the 15-to-18 converter. -/
def alphabetStr : String := "ABCDEFGHIJKLMNOPQRSTUVWXYZ012345"

/-- `s.charAt(i)` as a character list (`""` when out of range). -/
def jsCharAtL (s : String) (i : Nat) : List Char := (s.data.drop i).take 1

/-- The 5-bit flag word of chunk `i` (`to18CharId`'s inner loop): bit `j` is
set iff character `i*5+j` is an uppercase ASCII letter.  Out-of-range
`charAt` yields `""`, which fails the `"A" <= c && c <= "Z"` test, modelled by
the default `' '`. -/
def chunkFlags (t : String) (i : Nat) : Nat :=
  (List.range 5).foldl
    (fun flags j =>
      let c := t.data.getD (i * 5 + j) ' '
      if 'A' ≤ c ∧ c ≤ 'Z' then flags + (1 <<< j) else flags) 0

/-- The three-character checksum suffix accumulated by `to18CharId`. -/
def suffixChars (t : String) : List Char :=
  (List.range 3).foldl (fun acc i => acc ++ jsCharAtL alphabetStr (chunkFlags t i)) []

/-- Embedding of `to18CharId` (route.ts lines 11–29). -/
def to18CharId (id : String) : String :=
  if id = "" then ""
  else
    let t := jsTrim id
    if t.length = 18 then t
    else if t.length ≠ 15 then t
    else ⟨t.data ++ suffixChars t⟩

/-- Key normalization used by `findColumn`: `k.toLowerCase().trim()`. -/
def keyNorm (s : String) : String := jsTrim (jsToLower s)

/-- Phase 1 of `findColumn`: for each candidate in order, the value of the
first record key equal to it after case folding and trimming. -/
def exactPhase (row : JsRec) (candidates : List String) : Option String :=
  candidates.findSome? fun cand =>
    ((row.map (·.1)).find? (fun k => keyNorm k = keyNorm cand)).map (lookupVal row)

/-- Phase 2 of `findColumn`: substring match (key contains candidate). -/
def partialPhase (row : JsRec) (candidates : List String) : Option String :=
  candidates.findSome? fun cand =>
    ((row.map (·.1)).find? (fun k => occursIn (keyNorm k).data (keyNorm cand).data)).map
      (lookupVal row)

/-- Embedding of `findColumn` (route.ts lines 147–172). -/
def findColumn (row : JsRec) (candidates : List String) (strict : Bool) : String :=
  match exactPhase row candidates with
  | some v => v
  | none =>
    if strict then ""
    else
      match partialPhase row candidates with
      | some v => v
      | none => ""

/-- Embedding of `isValidOpportunityId` (route.ts lines 177–191). -/
def isValidOpportunityId (value : String) : Bool :=
  if value = "" then false
  else
    let trimmed := jsTrim value
    if ¬ strStartsWith trimmed "006" then false
    else if trimmed.length ≠ 15 ∧ trimmed.length ≠ 18 then false
    else if ¬ (trimmed.data ≠ [] ∧ trimmed.data.all Char.isAlphanum) then false
    else true

/-! ### The CSV text scanner (route.ts lines 34–69)

`text.replace(/^﻿/, "").replace(/\r\n/g, "\n").replace(/\r/g, "\n")`
followed by the single left-to-right scan with an `insideQuotes` flag. -/

/-- Strip a leading byte-order mark. -/
def stripBOM : List Char → List Char
  | [] => []
  | c :: rest => if c = '﻿' then rest else c :: rest

/-- Global left-to-right non-overlapping replacement of `"\r\n"` by `"\n"`. -/
def replaceCRLF : List Char → List Char
  | [] => []
  | ['\r'] => ['\r']
  | '\r' :: '\n' :: rest => '\n' :: replaceCRLF rest
  | '\r' :: c :: rest => '\r' :: replaceCRLF (c :: rest)
  | c :: rest => c :: replaceCRLF rest

/-- Global replacement of `'\r'` by `'\n'`. -/
def replaceCR (l : List Char) : List Char := l.map (fun c => if c = '\r' then '\n' else c)

/-- The `cleanText` normalization of `parseCSV`. -/
def cleanL (l : List Char) : List Char := replaceCR (replaceCRLF (stripBOM l))

/-- The character scan of `parseCSV`: state is `insideQuotes`, the current
field accumulator, the current row, and the emitted rows.  A `"` toggles the
quote state unless doubled inside quotes; `,`/newline outside quotes end the
field (trimmed) resp. the row; end of input flushes a pending field/row. -/
def csvScan : List Char → Bool → List Char → List String → List (List String) →
    List (List String)
  | [], _, cv, cr, rows =>
      if cv ≠ [] ∨ cr ≠ [] then rows ++ [cr ++ [(⟨jsTrimL cv⟩ : String)]] else rows
  | '"' :: '"' :: cs, true, cv, cr, rows => csvScan cs true (cv ++ ['"']) cr rows
  | '"' :: cs, iq, cv, cr, rows => csvScan cs (!iq) cv cr rows
  | ',' :: cs, false, cv, cr, rows =>
      csvScan cs false [] (cr ++ [(⟨jsTrimL cv⟩ : String)]) rows
  | '\n' :: cs, false, cv, cr, rows =>
      csvScan cs false [] []
        (if (cr ++ [(⟨jsTrimL cv⟩ : String)]).length > 0 then
          rows ++ [cr ++ [(⟨jsTrimL cv⟩ : String)]]
        else rows)
  | c :: cs, iq, cv, cr, rows => csvScan cs iq (cv ++ [c]) cr rows

/-- The row grid produced by the scanning stage of `parseCSV`. -/
def parseCSVRows (text : String) : List (List String) :=
  csvScan (cleanL text.data) false [] [] []

/-- The record-building `forEach` of `parseCSV` (lines 74–79): skips empty
headers, `values[idx] || ""` defaults missing/falsy cells to `""`. -/
def csvRecAux : List String → Nat → List String → JsRec → JsRec
  | [], _, _, acc => acc
  | h :: hs, idx, values, acc =>
      csvRecAux hs (idx + 1) values
        (if h ≠ "" then jsSetKey acc h (values.getD idx "") else acc)

/-- One record of the CSV path. -/
def csvRecordOfRow (headers values : List String) : JsRec :=
  csvRecAux headers 0 values []

/-- The record stage of `parseCSV` (lines 71–80), applied to a row grid. -/
def parseCSVRecords (rows : List (List String)) : List JsRec :=
  if rows.length < 2 then []
  else (rows.drop 1).map (fun values => csvRecordOfRow (rows.getD 0 []) values)

/-- Embedding of `parseCSV` (route.ts lines 34–81). -/
def parseCSV (text : String) : List JsRec := parseCSVRecords (parseCSVRows text)

/-- The record-building `forEach` of `rowsToRecords` (lines 137–139): unlike
the CSV path it has no empty-header guard. -/
def rawRecAux : List String → Nat → List String → JsRec → JsRec
  | [], _, _, acc => acc
  | h :: hs, idx, values, acc =>
      rawRecAux hs (idx + 1) values (jsSetKey acc h (values.getD idx ""))

/-- One record of the API row-grid path. -/
def rawRecordOfRow (headers values : List String) : JsRec :=
  rawRecAux headers 0 values []

/-- Embedding of `rowsToRecords` (route.ts lines 132–142). -/
def rowsToRecords (raw : List (List String)) : List JsRec :=
  if raw.length < 2 then []
  else (raw.drop 1).map (fun values => rawRecordOfRow (raw.getD 0 []) values)

/-! ### Identifier lookup, amount parsing, opportunity mapping -/

/-- The exact-column candidates of `getOpportunityID` strategy 1. -/
def exactIdCandidates : List String :=
  ["Opportunity ID", "Opportunity Id", "OpportunityId", "OPPORTUNITY_ID",
   "Opp ID", "Opp Id", "OppId", "Id", "ID"]

/-- The guard `if (value && isValidOpportunityId(value))` followed by
`return to18CharId(value.trim())`, shared by all three strategies of
`getOpportunityID`. -/
def idHit (value : String) : Option String :=
  if value ≠ "" ∧ isValidOpportunityId value then some (to18CharId (jsTrim value))
  else none

/-- The key filter of `getOpportunityID` strategy 2: name contains "id" or
"opp" but not "account"/"owner". -/
def idLikeKey (key : String) : Bool :=
  let lower := jsToLower key
  (strIncludes lower "id" || strIncludes lower "opp") &&
    !(strIncludes lower "account") && !(strIncludes lower "owner")

/-- Strategy 1: exact known id columns, strict `findColumn`. -/
def idStrat1 (row : JsRec) : Option String :=
  exactIdCandidates.findSome? (fun cand => idHit (findColumn row [cand] true))

/-- Strategy 2: scan id-like column names. -/
def idStrat2 (row : JsRec) : Option String :=
  ((row.map (·.1)).filter idLikeKey).findSome? (fun key => idHit (lookupVal row key))

/-- Strategy 3: brute-force scan all entries. -/
def idStrat3 (row : JsRec) : Option String :=
  row.findSome? (fun kv => idHit kv.2)

/-- Embedding of `getOpportunityID` (route.ts lines 193–252); the `oppName`
argument is used only for console logging and is omitted. -/
def getOpportunityID (row : JsRec) : String :=
  match idStrat1 row with
  | some r => r
  | none =>
    match idStrat2 row with
    | some r => r
    | none =>
      match idStrat3 row with
      | some r => r
      | none => ""

/-- The character class kept by `parseAmount`'s `replace(/[^0-9.,-]/g, "")`. -/
def amountKept (c : Char) : Bool := c.isDigit || c = '.' || c = ',' || c = '-'

/-- The kept characters of an amount string. -/
def cleanAmount (s : String) : List Char := s.data.filter amountKept

/-- The match `cleaned.match(/^([0-9.]*),(\d{1,2})$/)`: since neither group
may contain a comma, a match is a split at the unique comma with the head all
digits/dots and the tail one or two digits. -/
def europeanMatch (l : List Char) : Option (List Char × List Char) :=
  let a := l.takeWhile (fun c => c ≠ ',')
  match l.dropWhile (fun c => c ≠ ',') with
  | ',' :: b =>
    if a.all (fun c => c.isDigit || c = '.') && b.all Char.isDigit &&
        (b.length = 1 || b.length = 2) then
      some (a, b)
    else none
  | _ => none

/-- Embedding of `parseAmount` (route.ts lines 254–265). -/
def parseAmount (value : String) : Option ℚ :=
  if value = "" then none
  else
    match europeanMatch (cleanAmount value) with
    | some (a, b) => parseFloatQ ⟨a.filter (fun c => c ≠ '.') ++ '.' :: b⟩
    | none => parseFloatQ ⟨(cleanAmount value).filter (fun c => c ≠ ',')⟩

/-- Embedding of `mapToOpportunity` (route.ts lines 267–291). -/
def mapToOpportunity (row : JsRec) (idx : Nat) : Opportunity :=
  let oppName := findColumn row ["Opportunity Name", "Name", "Opportunity"] false
  let oppId := getOpportunityID row
  { id := if oppId ≠ "" then oppId else "row-" ++ toString idx
    name := oppName
    stageName := findColumn row ["Stage", "StageName", "Stage Name"] false
    accessMethod :=
      findColumn row ["Access Method (Opp)", "Access_Method_Opp__c", "Access Method"] false
    amount := parseAmount (findColumn row ["Opp ARR (Master) (converted)", "Amount"] false)
    closeDate := findColumn row ["Close Date", "CloseDate", "Close"] false
    accountName := findColumn row ["Account Name", "Account", "AccountName"] false
    ownerName := findColumn row ["Opportunity Owner", "Owner", "Owner Name"] false
    probability := none
    createdDate := ""
    lastModifiedDate := ""
    url :=
      if oppId ≠ "" then
        "https://clarityai.lightning.force.com/lightning/r/Opportunity/" ++ oppId ++ "/view"
      else "" }

/-! ### The filtering logic of the route handler (route.ts lines 320–335) -/

/-- `hasAccessMethod`: does any record resolve a non-empty access-method
value? -/
def hasAccessMethod (rows : List JsRec) : Bool :=
  rows.any (fun r => findColumn r ["Access Method", "Access_Method_L__c"] false ≠ "")

/-- The lowered stage value of a record, as the filter computes it. -/
def stageOf (row : JsRec) : String := jsToLower (findColumn row ["Stage", "StageName"] false)

/-- The access-method admission test of the filter. -/
def isApiOrFeed (row : JsRec) : Bool :=
  let method := jsToLower (findColumn row ["Access Method", "Access_Method_L__c"] false)
  strIncludes method "api" || strIncludes method "data feed" || strIncludes method "datafeed"

/-- The `filter` stage of `filterOpps` (before `mapToOpportunity`). -/
def filterOppsRows (rows : List JsRec) (stageKeyword : String) : List JsRec :=
  rows.filter (fun row =>
    let matchesStage := strIncludes (stageOf row) stageKeyword
    if ¬ hasAccessMethod rows then matchesStage
    else matchesStage && isApiOrFeed row)

/-- Embedding of `filterOpps` (route.ts lines 323–335). -/
def filterOpps (rows : List JsRec) (stageKeyword : String) : List Opportunity :=
  (filterOppsRows rows stageKeyword).mapIdx (fun idx row => mapToOpportunity row idx)

end SF

/-- Quote-same CSV field encoder at the character level: double every
embedded quote. -/
def escQuotes : List Char → List Char
  | [] => []
  | c :: rest => if c = '"' then '"' :: '"' :: escQuotes rest else c :: escQuotes rest

/-- Encode one field: wrap in double quotes, double embedded quotes. -/
def encFieldL (f : List Char) : List Char := '"' :: (escQuotes f ++ ['"'])

/-- Encode one row: fields joined by commas. -/
def encRowL : List (List Char) → List Char
  | [] => []
  | [f] => encFieldL f
  | f :: r => encFieldL f ++ ',' :: encRowL r

/-- Encode a grid: rows joined by newlines. -/
def encGridL : List (List (List Char)) → List Char
  | [] => []
  | [r] => encRowL r
  | r :: rs => encRowL r ++ '\n' :: encGridL rs

/-- The standard quote-same CSV encoder on string rows. -/
def csvEncode (rows : List (List String)) : String :=
  ⟨encGridL (rows.map (fun r => r.map String.data))⟩

/-! ## Specification-side definitions

These follow the specification's wording (not the code) and are compared with
the source-translated definitions in the refinement theorems below. -/

/-- The `i`-th 5-character chunk of the 15-character identifier, per the
spec's "partition the 15 characters into three 5-character chunks". -/
def specChunk (t : String) (i : Nat) : List Char := (t.data.drop (i * 5)).take 5

/-- The spec's 5-bit flag word: bit `j` is set iff character `j` of the chunk
is an uppercase ASCII letter. -/
def specFlagWord (chunk : List Char) : Nat :=
  ((List.range 5).map (fun j =>
    if 'A' ≤ chunk.getD j ' ' ∧ chunk.getD j ' ' ≤ 'Z' then 2 ^ j else 0)).sum

/-- The spec's 3-character checksum suffix: each flag value (0–31) mapped
through the fixed alphabet. -/
def specChecksum (t : String) : String :=
  ⟨(List.range 3).map (fun i => SF.alphabetStr.data.getD (specFlagWord (specChunk t i)) ' ')⟩

/-! ## Basic lemmas about the string helpers -/

theorem dropWhile_eq_self_of_none {p : Char → Bool} {l : List Char}
    (h : ∀ c ∈ l, p c = false) : l.dropWhile p = l := by
  cases l with
  | nil => rfl
  | cons c rest => simp [List.dropWhile_cons, h c (by simp)]

theorem jsTrimL_eq_self {l : List Char} (h : ∀ c ∈ l, jsWS c = false) :
    jsTrimL l = l := by
  unfold jsTrimL
  rw [dropWhile_eq_self_of_none h,
    dropWhile_eq_self_of_none (fun c hc => h c (by simpa using hc)), List.reverse_reverse]

theorem alnum_not_ws {c : Char} (h : c.isAlphanum = true) : jsWS c = false := by
  simp only [jsWS, Char.isWhitespace]
  have h1 : c ≠ ' ' := by rintro rfl; simp at h
  have h2 : c ≠ '\t' := by rintro rfl; simp at h
  have h3 : c ≠ '\r' := by rintro rfl; simp at h
  have h4 : c ≠ '\n' := by rintro rfl; simp at h
  simp [h1, h2, h3, h4]

theorem strAppend_data (a b : String) : (a ++ b).data = a.data ++ b.data := rfl

theorem foldl_add_map (g : Nat → Nat) (l : List Nat) (init : Nat) :
    l.foldl (fun a b => a + g b) init = init + (l.map g).sum := by
  induction l generalizing init with
  | nil => simp
  | cons a l ih => simp [ih, Nat.add_assoc]

theorem foldl_append_map {α β : Type} (g : α → List β) (l : List α) (init : List β) :
    l.foldl (fun acc i => acc ++ g i) init = init ++ (l.map g).flatten := by
  induction l generalizing init with
  | nil => simp
  | cons a l ih => simp [ih, List.append_assoc]

theorem getD_take {l : List Char} {n j : Nat} (d : Char) (h : j < n) :
    (l.take n).getD j d = l.getD j d := by
  simp [List.getD_eq_getElem?_getD, List.getElem?_take, h]

theorem getD_drop (l : List Char) (n j : Nat) (d : Char) :
    (l.drop n).getD j d = l.getD (n + j) d := by
  simp [List.getD_eq_getElem?_getD, List.getElem?_drop]

namespace SF

/-! ## The checksum computation agrees with the spec's description -/

theorem chunkFlags_eq_specFlagWord (t : String) (i : Nat) :
    chunkFlags t i = specFlagWord (specChunk t i) := by
  unfold chunkFlags specFlagWord
  have hfun :
      (fun (flags j : Nat) =>
        let c := t.data.getD (i * 5 + j) ' '
        if 'A' ≤ c ∧ c ≤ 'Z' then flags + (1 <<< j) else flags) =
      (fun (flags j : Nat) =>
        flags + (if 'A' ≤ t.data.getD (i * 5 + j) ' ' ∧ t.data.getD (i * 5 + j) ' ' ≤ 'Z'
          then 1 <<< j else 0)) := by
    funext flags j
    by_cases h : 'A' ≤ t.data.getD (i * 5 + j) ' ' ∧ t.data.getD (i * 5 + j) ' ' ≤ 'Z'
    · rw [if_pos h, if_pos h]
    · rw [if_neg h, if_neg h, Nat.add_zero]
  rw [hfun, foldl_add_map, Nat.zero_add]
  congr 1
  apply List.map_congr_left
  intro j hj
  have hj5 : j < 5 := List.mem_range.mp hj
  rw [specChunk, getD_take ' ' hj5, getD_drop]
  rw [Nat.shiftLeft_eq, Nat.one_mul]

theorem specFlagWord_lt_32 (chunk : List Char) : specFlagWord chunk < 32 := by
  have hle : specFlagWord chunk ≤ ((List.range 5).map (fun j => 2 ^ j)).sum := by
    apply List.sum_le_sum
    intro j hj
    split <;> simp
  have : ((List.range 5).map (fun j => 2 ^ j)).sum = 31 := by decide
  omega

theorem chunkFlags_lt_32 (t : String) (i : Nat) : chunkFlags t i < 32 := by
  rw [chunkFlags_eq_specFlagWord]; exact specFlagWord_lt_32 _

theorem jsCharAtL_of_lt {s : String} {i : Nat} (h : i < s.data.length) (d : Char) :
    jsCharAtL s i = [s.data.getD i d] := by
  unfold jsCharAtL
  rw [List.getD_eq_getElem?_getD, List.getElem?_eq_getElem h]
  rw [List.drop_eq_getElem_cons h]
  rfl

theorem join_singletons {α β : Type} (f : α → β) (l : List α) :
    (l.map (fun a => [f a])).flatten = l.map f := by
  induction l with
  | nil => rfl
  | cons a l ih => simp [ih]

theorem suffixChars_eq_specChecksum (t : String) :
    suffixChars t = (specChecksum t).data := by
  have hlen : SF.alphabetStr.data.length = 32 := by decide
  unfold suffixChars specChecksum
  rw [foldl_append_map, List.nil_append]
  have hmap : (List.range 3).map (fun i => jsCharAtL alphabetStr (chunkFlags t i)) =
      (List.range 3).map
        (fun i => [alphabetStr.data.getD (specFlagWord (specChunk t i)) ' ']) := by
    apply List.map_congr_left
    intro i _
    rw [chunkFlags_eq_specFlagWord]
    exact jsCharAtL_of_lt (by rw [hlen]; exact specFlagWord_lt_32 _) ' '
  rw [hmap, join_singletons]

end SF


/-! ## Further helper lemmas for the identifier canonicalizer -/

theorem specChecksum_data_length (t : String) : (specChecksum t).data.length = 3 := by
  simp [specChecksum]

theorem suffixChars_length (t : String) : (SF.suffixChars t).length = 3 := by
  rw [SF.suffixChars_eq_specChecksum, specChecksum_data_length]

theorem alphabet_all_alnum : ∀ c ∈ SF.alphabetStr.data, c.isAlphanum = true := by decide

theorem suffixChars_alnum (t : String) :
    ∀ c ∈ SF.suffixChars t, c.isAlphanum = true := by
  rw [SF.suffixChars_eq_specChecksum]
  intro c hc
  simp only [specChecksum, List.mem_map] at hc
  obtain ⟨i, -, rfl⟩ := hc
  have hlen : SF.alphabetStr.data.length = 32 := by decide
  have hlt : specFlagWord (specChunk t i) < SF.alphabetStr.data.length := by
    rw [hlen]; exact SF.specFlagWord_lt_32 _
  rw [List.getD_eq_getElem?_getD, List.getElem?_eq_getElem hlt]
  exact alphabet_all_alnum _ (List.getElem_mem _)

theorem jsTrim_of_alnum {x : String} (h : x.data.all Char.isAlphanum = true) :
    jsTrim x = x := by
  unfold jsTrim
  rw [jsTrimL_eq_self (fun c hc => alnum_not_ws (List.all_eq_true.mp h c hc))]

theorem to18CharId_of_len15 {x : String} (hx : x ≠ "") (htrim : jsTrim x = x)
    (h15 : x.length = 15) : SF.to18CharId x = ⟨x.data ++ SF.suffixChars x⟩ := by
  unfold SF.to18CharId
  rw [if_neg hx]
  simp only [htrim]
  rw [if_neg (by omega), if_neg (by omega)]

theorem to18CharId_of_len18 {y : String} (hy : y ≠ "") (htrim : jsTrim y = y)
    (h18 : y.length = 18) : SF.to18CharId y = y := by
  unfold SF.to18CharId
  rw [if_neg hy]
  simp only [htrim]
  rw [if_pos h18]

/-! ## Claim theorems -/

/-- **C3** (counterexample).  The claim "if s is already 18 characters it is
returned unchanged" fails: `to18CharId` trims first, so an 18-character input
with a leading space is returned trimmed (17 characters), not unchanged. -/
theorem claim_C3_counterexample :
    (" AAAAAAAAAAAAAAAAA" : String).length = 18 ∧
    SF.to18CharId " AAAAAAAAAAAAAAAAA" ≠ " AAAAAAAAAAAAAAAAA" := by
  constructor
  · rfl
  · decide

/-- **C3** (amended).  `to18CharId` applies the stated contract to the
*trimmed* input: if the trimmed string is 18 characters it is returned; if it
is not exactly 15 characters it is returned; if it is exactly 15 characters
the result is it followed by the 3-character checksum suffix computed by
partitioning into three 5-character chunks, building a 5-bit flag word whose
bit `j` is set iff chunk character `j` is an uppercase ASCII letter, and
mapping each flag value through `"ABCDEFGHIJKLMNOPQRSTUVWXYZ012345"`. -/
theorem claim_C3 (s : String) :
    SF.to18CharId s =
      (if (jsTrim s).length = 18 then jsTrim s
       else if (jsTrim s).length ≠ 15 then jsTrim s
       else jsTrim s ++ specChecksum (jsTrim s)) := by
  unfold SF.to18CharId
  by_cases hs : s = ""
  · subst hs; rfl
  · rw [if_neg hs]
    by_cases h18 : (jsTrim s).length = 18
    · simp [h18]
    · rw [if_neg h18, if_neg h18]
      by_cases h15 : (jsTrim s).length = 15
      · rw [if_neg (by omega), if_neg (by omega)]
        show String.mk ((jsTrim s).data ++ SF.suffixChars (jsTrim s)) = _
        rw [SF.suffixChars_eq_specChecksum]
        rfl
      · rw [if_pos (by omega), if_pos (by omega)]

/-- **C4** (confirmed).  On a 15-character alphanumeric input with the `006`
prefix, `to18CharId` is a pure function of its argument (it is a Lean
function) and is idempotent on its own output. -/
theorem claim_C4 (x : String) (h15 : x.length = 15)
    (hPre : strStartsWith x "006" = true)
    (hAl : x.data.all Char.isAlphanum = true) :
    SF.to18CharId (SF.to18CharId x) = SF.to18CharId x := by
  have hxne : x ≠ "" := by
    intro h
    rw [h] at h15
    exact absurd h15 (by decide)
  have htrimx : jsTrim x = x := jsTrim_of_alnum hAl
  have h1 : SF.to18CharId x = ⟨x.data ++ SF.suffixChars x⟩ :=
    to18CharId_of_len15 hxne htrimx h15
  set y : String := ⟨x.data ++ SF.suffixChars x⟩ with hy
  have hydata : y.data = x.data ++ SF.suffixChars x := rfl
  have hylen : y.length = 18 := by
    show y.data.length = 18
    rw [hydata, List.length_append, suffixChars_length]
    have : x.data.length = 15 := h15
    omega
  have hyne : y ≠ "" := by
    intro h
    rw [h] at hylen
    exact absurd hylen (by decide)
  have hyal : y.data.all Char.isAlphanum = true := by
    rw [hydata, List.all_append, hAl, List.all_eq_true.mpr (suffixChars_alnum x)]
    rfl
  have htrimy : jsTrim y = y := jsTrim_of_alnum hyal
  rw [h1, to18CharId_of_len18 hyne htrimy hylen]

/-- **C4** (witness): idempotence at the concrete id `006A0000003DHP0`. -/
theorem claim_C4_witness :
    ("006A0000003DHP0" : String).length = 15 ∧
    SF.to18CharId (SF.to18CharId "006A0000003DHP0") = SF.to18CharId "006A0000003DHP0" :=
  ⟨by decide, claim_C4 "006A0000003DHP0" (by decide) (by decide) (by decide)⟩

/-- **C5** (confirmed).  A record whose only key is `"Source Opportunity ID"`
does not resolve candidates `["Opportunity ID", "Id"]` in strict mode but does
in non-strict mode; and whenever any candidate has an exact (case-insensitive,
trimmed) key match, `findColumn` returns that match's value — the substring
phase is never consulted. -/
theorem claim_C5 :
    (∀ v : String,
      SF.findColumn [("Source Opportunity ID", v)] ["Opportunity ID", "Id"] true = "" ∧
      SF.findColumn [("Source Opportunity ID", v)] ["Opportunity ID", "Id"] false = v) ∧
    (∀ (row : JsRec) (cands : List String) (strict : Bool) (v : String),
      SF.exactPhase row cands = some v → SF.findColumn row cands strict = v) := by
  constructor
  · intro v
    exact ⟨rfl, rfl⟩
  · intro row cands strict v h
    unfold SF.findColumn
    rw [h]

/-- **C5** (witness): the exact phase resolves `"Id"` and `findColumn`
returns its value even in strict mode. -/
theorem claim_C5_witness :
    SF.exactPhase [("Id", "z")] ["Id"] = some "z" ∧
    SF.findColumn [("Id", "z")] ["Id"] true = "z" :=
  ⟨rfl, claim_C5.2 [("Id", "z")] ["Id"] true "z" rfl⟩

/-- **C7** (confirmed).  `parseAmount` follows the disambiguation algorithm:
strip to `[0-9.,-]`; on a European `digits/dots , d{1,2}` match drop the dots
and use the comma as decimal point, otherwise strip commas; the four sample
values evaluate as the spec states. -/
theorem claim_C7 :
    SF.parseAmount "1.234.567,89" = some ((123456789 : ℚ) / 100) ∧
    SF.parseAmount "1,234,567.89" = some ((123456789 : ℚ) / 100) ∧
    SF.parseAmount "" = none ∧
    SF.parseAmount "abc" = none ∧
    (∀ s : String,
      SF.parseAmount s =
        if s = "" then none
        else
          match SF.europeanMatch (SF.cleanAmount s) with
          | some (a, b) => parseFloatQ ⟨a.filter (fun c => c ≠ '.') ++ '.' :: b⟩
          | none => parseFloatQ ⟨(SF.cleanAmount s).filter (fun c => c ≠ ',')⟩) := by
  have hd1 : digitsVal ['1', '2', '3', '4', '5', '6', '7'] = 1234567 := by decide
  have hd2 : digitsVal ['8', '9'] = 89 := by decide
  have h1 : SF.parseAmount "1.234.567,89" =
      some ((1 : ℚ) * ((digitsVal ['1', '2', '3', '4', '5', '6', '7'] : ℚ) +
        (digitsVal ['8', '9'] : ℚ) / (10 : ℚ) ^ (2 : ℕ))) := rfl
  have h2 : SF.parseAmount "1,234,567.89" =
      some ((1 : ℚ) * ((digitsVal ['1', '2', '3', '4', '5', '6', '7'] : ℚ) +
        (digitsVal ['8', '9'] : ℚ) / (10 : ℚ) ^ (2 : ℕ))) := rfl
  refine ⟨?_, ?_, rfl, by decide, fun s => rfl⟩
  · rw [h1, hd1, hd2]
    norm_num
  · rw [h2, hd1, hd2]
    norm_num

/-- **C10** (confirmed).  `isValidOpportunityId` accepts any 18-character
alphanumeric `006…` string without verifying the checksum: the suffix `BBB`
differs from the checksum `AAA` that `to18CharId` computes for the first 15
characters, yet validation succeeds. -/
theorem claim_C10 :
    SF.isValidOpportunityId "006000000000000BBB" = true ∧
    ("006000000000000BBB" : String).length = 18 ∧
    strStartsWith "006000000000000BBB" "006" = true ∧
    ("006000000000000BBB" : String).data.all Char.isAlphanum = true ∧
    ("006000000000000BBB" : String).data.take 15 = ("006000000000000" : String).data ∧
    SF.to18CharId "006000000000000" = "006000000000000AAA" ∧
    ("006000000000000BBB" : String) ≠ "006000000000000AAA" := by
  refine ⟨by decide, by decide, by decide, by decide, by decide, ?_, by decide⟩
  decide

/-- **C6** (confirmed).  The stage-bucket filter: with no access-method value
anywhere in the set, admission is stage-substring match alone; with one
present anywhere, every record must additionally pass the api/data-feed
substring test, which an empty access-method value always fails. -/
theorem claim_C6 (rows : List JsRec) (kw : String) (row : JsRec) :
    (SF.hasAccessMethod rows = false →
      (row ∈ SF.filterOppsRows rows kw ↔
        row ∈ rows ∧ strIncludes (SF.stageOf row) kw = true)) ∧
    (SF.hasAccessMethod rows = true →
      (row ∈ SF.filterOppsRows rows kw ↔
        row ∈ rows ∧ strIncludes (SF.stageOf row) kw = true ∧
          SF.isApiOrFeed row = true)) ∧
    (SF.findColumn row ["Access Method", "Access_Method_L__c"] false = "" →
      SF.isApiOrFeed row = false) := by
  refine ⟨?_, ?_, ?_⟩
  · intro h
    simp [SF.filterOppsRows, List.mem_filter, h]
  · intro h
    simp [SF.filterOppsRows, List.mem_filter, h]
  · intro h
    unfold SF.isApiOrFeed
    rw [h]
    decide

/-- **C6** (witness): a set without access methods admits a stage-matching
record, and an empty access-method value fails the api/data-feed test. -/
theorem claim_C6_witness :
    [("Stage", "Due Diligence call")] ∈
      SF.filterOppsRows [[("Stage", "Due Diligence call")]] "due diligence" ∧
    SF.isApiOrFeed [("Stage", "x")] = false := by
  constructor
  · exact ((claim_C6 [[("Stage", "Due Diligence call")]] "due diligence"
      [("Stage", "Due Diligence call")]).1 (by decide)).mpr ⟨by decide, by decide⟩
  · exact (claim_C6 [] "" [("Stage", "x")]).2.2 (by decide)

/-! ## Association-list lemmas for the record mappers -/

theorem lookupVal_cons (p : String × String) (acc : JsRec) (k : String) :
    lookupVal (p :: acc) k = if p.1 = k then p.2 else lookupVal acc k := by
  unfold lookupVal
  rw [List.find?_cons]
  by_cases h : p.1 = k
  · simp [h]
  · simp [h]

theorem jsSetKey_fst (acc : JsRec) (k v : String) :
    ∀ p ∈ jsSetKey acc k v, p.1 = k ∨ p ∈ acc := by
  unfold jsSetKey
  split
  · intro p hp
    rw [List.mem_map] at hp
    obtain ⟨q, hq, rfl⟩ := hp
    split
    · exact Or.inl rfl
    · exact Or.inr hq
  · intro p hp
    rw [List.mem_append] at hp
    rcases hp with hp | hp
    · exact Or.inr hp
    · simp at hp
      subst hp
      exact Or.inl rfl

theorem lookup_map_set (acc : JsRec) (k v k' : String) (h : k' ≠ k) :
    lookupVal (acc.map (fun p => if p.1 = k then (k, v) else p)) k' = lookupVal acc k' := by
  induction acc with
  | nil => rfl
  | cons p acc ih =>
    rw [List.map_cons, lookupVal_cons, lookupVal_cons]
    by_cases hpk : p.1 = k
    · rw [if_pos hpk]
      have hk : ¬ ((k, v).1 = k') := fun hh => h hh.symm
      rw [if_neg hk, if_neg (by rw [hpk]; exact fun hh => h hh.symm)]
      exact ih
    · rw [if_neg hpk]
      by_cases hpk' : p.1 = k'
      · rw [if_pos hpk', if_pos hpk']
      · rw [if_neg hpk', if_neg hpk']
        exact ih

theorem lookup_append_single_ne (acc : JsRec) (k v k' : String) (h : k' ≠ k) :
    lookupVal (acc ++ [(k, v)]) k' = lookupVal acc k' := by
  induction acc with
  | nil =>
    rw [List.nil_append, lookupVal_cons, if_neg (fun hh => h hh.symm)]
  | cons p acc ih =>
    rw [List.cons_append, lookupVal_cons, lookupVal_cons]
    by_cases hpk' : p.1 = k'
    · rw [if_pos hpk', if_pos hpk']
    · rw [if_neg hpk', if_neg hpk']
      exact ih

theorem lookup_append_single_self (acc : JsRec) (k v : String)
    (hnot : ∀ p ∈ acc, p.1 ≠ k) : lookupVal (acc ++ [(k, v)]) k = v := by
  induction acc with
  | nil =>
    rw [List.nil_append, lookupVal_cons, if_pos rfl]
  | cons p acc ih =>
    rw [List.cons_append, lookupVal_cons, if_neg (hnot p (by simp))]
    exact ih (fun q hq => hnot q (by simp [hq]))

theorem lookup_jsSetKey_ne (acc : JsRec) (k v k' : String) (h : k' ≠ k) :
    lookupVal (jsSetKey acc k v) k' = lookupVal acc k' := by
  unfold jsSetKey
  split
  · exact lookup_map_set acc k v k' h
  · exact lookup_append_single_ne acc k v k' h

theorem lookup_jsSetKey_self (acc : JsRec) (k v : String)
    (hnot : ∀ p ∈ acc, p.1 ≠ k) : lookupVal (jsSetKey acc k v) k = v := by
  unfold jsSetKey
  split
  case isTrue hc =>
    exfalso
    rw [List.contains_eq_any_beq, List.any_eq_true] at hc
    obtain ⟨x, hx, hxk⟩ := hc
    rw [List.mem_map] at hx
    obtain ⟨p, hp, rfl⟩ := hx
    have : k = p.1 := by simpa using hxk
    exact hnot p hp this.symm
  case isFalse =>
    exact lookup_append_single_self acc k v hnot

theorem csvRecAux_keys (hs : List String) (n : Nat) (values : List String) (acc : JsRec)
    (hacc : ∀ p ∈ acc, p.1 ≠ "") : ∀ p ∈ SF.csvRecAux hs n values acc, p.1 ≠ "" := by
  induction hs generalizing n acc with
  | nil => exact hacc
  | cons h hs ih =>
    show ∀ p ∈ SF.csvRecAux hs (n + 1) values _, p.1 ≠ ""
    apply ih
    by_cases hh : h ≠ ""
    · rw [if_pos hh]
      intro p hp
      rcases jsSetKey_fst _ _ _ p hp with h1 | h1
      · rw [h1]; exact hh
      · exact hacc p h1
    · rw [if_neg hh]
      exact hacc

theorem csvRecAux_lookup_notmem (hs : List String) (n : Nat) (values : List String)
    (acc : JsRec) (k : String) (hk : k ∉ hs) :
    lookupVal (SF.csvRecAux hs n values acc) k = lookupVal acc k := by
  induction hs generalizing n acc with
  | nil => rfl
  | cons h hs ih =>
    show lookupVal (SF.csvRecAux hs (n + 1) values _) k = _
    rw [ih _ _ (fun hm => hk (List.mem_cons_of_mem _ hm))]
    by_cases hh : h ≠ ""
    · rw [if_pos hh,
        lookup_jsSetKey_ne _ _ _ _ (fun hkh => hk (by rw [hkh]; exact List.mem_cons_self _ _))]
    · rw [if_neg hh]

theorem rawRecAux_lookup_notmem (hs : List String) (n : Nat) (values : List String)
    (acc : JsRec) (k : String) (hk : k ∉ hs) :
    lookupVal (SF.rawRecAux hs n values acc) k = lookupVal acc k := by
  induction hs generalizing n acc with
  | nil => rfl
  | cons h hs ih =>
    show lookupVal (SF.rawRecAux hs (n + 1) values _) k = _
    rw [ih _ _ (fun hm => hk (List.mem_cons_of_mem _ hm)),
      lookup_jsSetKey_ne _ _ _ _ (fun hkh => hk (by rw [hkh]; exact List.mem_cons_self _ _))]

theorem csvRecAux_lookup (hs : List String) (n : Nat) (values : List String) (acc : JsRec)
    (hnd : hs.Nodup) (hdisj : ∀ p ∈ acc, p.1 ∉ hs) (i : Nat) (hi : i < hs.length)
    (hne : hs.getD i "" ≠ "") :
    lookupVal (SF.csvRecAux hs n values acc) (hs.getD i "") = values.getD (n + i) "" := by
  induction hs generalizing n acc i with
  | nil => simp at hi
  | cons h hs ih =>
    rcases List.nodup_cons.mp hnd with ⟨hh, hnd'⟩
    cases i with
    | zero =>
      show lookupVal (SF.csvRecAux hs (n + 1) values _) h = values.getD (n + 0) ""
      rw [csvRecAux_lookup_notmem _ _ _ _ _ hh]
      have hne0 : h ≠ "" := hne
      rw [if_pos hne0,
        lookup_jsSetKey_self _ _ _
          (fun p hp hpk => hdisj p hp (by rw [← hpk]; exact List.mem_cons_self _ _)),
        Nat.add_zero]
    | succ i =>
      show lookupVal (SF.csvRecAux hs (n + 1) values _) (hs.getD i "") = _
      have hi' : i < hs.length := by simpa using hi
      have hdisj' : ∀ p ∈ (if h ≠ "" then jsSetKey acc h (values.getD n "") else acc),
          p.1 ∉ hs := by
        by_cases hh0 : h ≠ ""
        · rw [if_pos hh0]
          intro p hp
          rcases jsSetKey_fst _ _ _ p hp with h1 | h1
          · rw [h1]; exact hh
          · exact fun hm => hdisj p h1 (List.mem_cons_of_mem _ hm)
        · rw [if_neg hh0]
          exact fun p hp hm => hdisj p hp (List.mem_cons_of_mem _ hm)
      rw [ih (n + 1) _ hnd' hdisj' i hi' hne]
      congr 1
      omega

theorem rawRecAux_lookup (hs : List String) (n : Nat) (values : List String) (acc : JsRec)
    (hnd : hs.Nodup) (hdisj : ∀ p ∈ acc, p.1 ∉ hs) (i : Nat) (hi : i < hs.length) :
    lookupVal (SF.rawRecAux hs n values acc) (hs.getD i "") = values.getD (n + i) "" := by
  induction hs generalizing n acc i with
  | nil => simp at hi
  | cons h hs ih =>
    rcases List.nodup_cons.mp hnd with ⟨hh, hnd'⟩
    cases i with
    | zero =>
      show lookupVal (SF.rawRecAux hs (n + 1) values _) h = values.getD (n + 0) ""
      rw [rawRecAux_lookup_notmem _ _ _ _ _ hh,
        lookup_jsSetKey_self _ _ _
          (fun p hp hpk => hdisj p hp (by rw [← hpk]; exact List.mem_cons_self _ _)),
        Nat.add_zero]
    | succ i =>
      show lookupVal (SF.rawRecAux hs (n + 1) values _) (hs.getD i "") = _
      have hi' : i < hs.length := by simpa using hi
      have hdisj' : ∀ p ∈ jsSetKey acc h (values.getD n ""), p.1 ∉ hs := by
        intro p hp
        rcases jsSetKey_fst _ _ _ p hp with h1 | h1
        · rw [h1]; exact hh
        · exact fun hm => hdisj p h1 (List.mem_cons_of_mem _ hm)
      rw [ih (n + 1) _ hnd' hdisj' i hi']
      congr 1
      omega

/-- **C8** (counterexample).  `rowsToRecords` has no empty-header guard: with
header row `[""]` it produces a record whose only key is the empty string,
refuting "no produced record ever contains an empty-string key … for both
record-mapping paths". -/
theorem claim_C8_counterexample :
    SF.rowsToRecords [[""], ["x"]] = [[("", "x")]] ∧
    "" ∈ ((SF.rowsToRecords [[""], ["x"]]).getD 0 []).map Prod.fst := by
  exact ⟨rfl, by decide⟩

/-- **C8** (amended).  Both record-mapping paths return `[]` on fewer than 2
rows and zip `header[i] → row[i]` with missing trailing values defaulting to
`""`; the CSV path (`parseCSV`) skips empty headers, so its records never
contain an empty-string key, while `rowsToRecords` maps empty headers too. -/
theorem claim_C8 :
    (∀ rows : List (List String), rows.length < 2 →
      SF.parseCSVRecords rows = [] ∧ SF.rowsToRecords rows = []) ∧
    (∀ headers values : List String, ∀ p ∈ SF.csvRecordOfRow headers values, p.1 ≠ "") ∧
    (∀ (headers values : List String) (i : Nat), headers.Nodup → i < headers.length →
      (headers.getD i "" ≠ "" →
        lookupVal (SF.csvRecordOfRow headers values) (headers.getD i "") =
          values.getD i "") ∧
      lookupVal (SF.rawRecordOfRow headers values) (headers.getD i "") =
        values.getD i "") := by
  refine ⟨?_, ?_, ?_⟩
  · intro rows h
    constructor
    · unfold SF.parseCSVRecords
      rw [if_pos h]
    · unfold SF.rowsToRecords
      rw [if_pos h]
  · intro headers values
    exact csvRecAux_keys headers 0 values [] (by intro p hp; simp at hp)
  · intro headers values i hnd hi
    constructor
    · intro hne
      have := csvRecAux_lookup headers 0 values [] hnd (by intro p hp; simp at hp) i hi hne
      rwa [Nat.zero_add] at this
    · have := rawRecAux_lookup headers 0 values [] hnd (by intro p hp; simp at hp) i hi
      rwa [Nat.zero_add] at this

/-- **C8** (witness): lookups on concrete grids via the zip property. -/
theorem claim_C8_witness :
    SF.parseCSVRecords [["a"]] = [] ∧
    lookupVal (SF.csvRecordOfRow ["a", "b"] ["x", "y"]) "b" = "y" ∧
    lookupVal (SF.rawRecordOfRow ["a", "b"] ["x"]) "b" = "" := by
  refine ⟨(claim_C8.1 [["a"]] (by decide)).1, ?_, ?_⟩
  · exact (claim_C8.2.2 ["a", "b"] ["x", "y"] 1 (by decide) (by decide)).1 (by decide)
  · exact (claim_C8.2.2 ["a", "b"] ["x"] 1 (by decide) (by decide)).2

/-! ## Helper lemmas for the identifier pipeline (C9) -/

theorem isValid_unfold {v : String} (h : SF.isValidOpportunityId v = true) :
    v ≠ "" ∧ ((jsTrim v).length = 15 ∨ (jsTrim v).length = 18) ∧
      (jsTrim v).data.all Char.isAlphanum = true := by
  unfold SF.isValidOpportunityId at h
  by_cases h0 : v = ""
  · rw [if_pos h0] at h; simp at h
  · rw [if_neg h0] at h
    by_cases h1 : ¬ (strStartsWith (jsTrim v) "006" = true)
    · rw [if_pos h1] at h; simp at h
    · rw [if_neg h1] at h
      by_cases h2 : (jsTrim v).length ≠ 15 ∧ (jsTrim v).length ≠ 18
      · rw [if_pos h2] at h; simp at h
      · rw [if_neg h2] at h
        by_cases h3 : ¬ ((jsTrim v).data ≠ [] ∧ (jsTrim v).data.all Char.isAlphanum = true)
        · rw [if_pos h3] at h; simp at h
        · exact ⟨h0, by omega, (of_not_not h3).2⟩

theorem to18_of_valid_ne {v : String} (h : SF.isValidOpportunityId v = true) :
    SF.to18CharId (jsTrim v) ≠ "" := by
  obtain ⟨-, hlen, hal⟩ := isValid_unfold h
  have htr : jsTrim (jsTrim v) = jsTrim v := jsTrim_of_alnum hal
  have hne : jsTrim v ≠ "" := by
    intro hh
    rw [hh] at hlen
    rcases hlen with h' | h' <;> exact absurd h' (by decide)
  unfold SF.to18CharId
  rw [if_neg hne]
  simp only [htr]
  rcases hlen with h15 | h18
  · rw [if_neg (by omega), if_neg (by omega)]
    intro heq
    have hdata : (jsTrim v).data ++ SF.suffixChars (jsTrim v) = [] :=
      congrArg String.data heq
    have h1 := congrArg List.length hdata
    rw [List.length_append, suffixChars_length] at h1
    have h2 : (jsTrim v).data.length = (jsTrim v).length := rfl
    simp at h1
  · rw [if_pos h18]
    exact hne

theorem lookupVal_ne_mem {row : JsRec} {k : String} (h : lookupVal row k ≠ "") :
    lookupVal row k ∈ row.map Prod.snd := by
  unfold lookupVal at h ⊢
  cases hf : row.find? (fun p => p.1 = k) with
  | none =>
    rw [hf] at h
    exact (h rfl).elim
  | some p => exact List.mem_map_of_mem _ (List.mem_of_find?_eq_some hf)

theorem findColumn_mem_values {row : JsRec} {cands : List String} {strict : Bool}
    (h : SF.findColumn row cands strict ≠ "") :
    SF.findColumn row cands strict ∈ row.map Prod.snd := by
  unfold SF.findColumn at h ⊢
  cases hex : SF.exactPhase row cands with
  | some w =>
    rw [hex] at h
    obtain ⟨cand, -, hc⟩ := List.exists_of_findSome?_eq_some hex
    rw [Option.map_eq_some'] at hc
    obtain ⟨k, -, rfl⟩ := hc
    exact lookupVal_ne_mem (fun hh => h hh)
  | none =>
    rw [hex] at h
    cases strict with
    | true => exact (h rfl).elim
    | false =>
      cases hp : SF.partialPhase row cands with
      | none =>
        rw [hp] at h
        exact (h rfl).elim
      | some w =>
        rw [hp] at h
        obtain ⟨cand, -, hc⟩ := List.exists_of_findSome?_eq_some hp
        rw [Option.map_eq_some'] at hc
        obtain ⟨k, -, rfl⟩ := hc
        exact lookupVal_ne_mem (fun hh => h hh)

theorem idHit_spec {v r : String} (h : SF.idHit v = some r) :
    v ≠ "" ∧ SF.isValidOpportunityId v = true ∧ r = SF.to18CharId (jsTrim v) := by
  unfold SF.idHit at h
  split_ifs at h with hc
  rw [Option.some.injEq] at h
  exact ⟨hc.1, hc.2, h.symm⟩

theorem getOpportunityID_spec (row : JsRec) :
    SF.getOpportunityID row = "" ∨
    ∃ v, v ∈ row.map Prod.snd ∧ SF.isValidOpportunityId v = true ∧
      SF.getOpportunityID row = SF.to18CharId (jsTrim v) := by
  unfold SF.getOpportunityID
  cases h1 : SF.idStrat1 row with
  | some r =>
    right
    obtain ⟨cand, -, hc⟩ := List.exists_of_findSome?_eq_some h1
    obtain ⟨hne, hval, rfl⟩ := idHit_spec hc
    exact ⟨_, findColumn_mem_values hne, hval, rfl⟩
  | none =>
    cases h2 : SF.idStrat2 row with
    | some r =>
      right
      obtain ⟨key, -, hc⟩ := List.exists_of_findSome?_eq_some h2
      obtain ⟨hne, hval, rfl⟩ := idHit_spec hc
      exact ⟨_, lookupVal_ne_mem hne, hval, rfl⟩
    | none =>
      cases h3 : SF.idStrat3 row with
      | some r =>
        right
        obtain ⟨kv, hkv, hc⟩ := List.exists_of_findSome?_eq_some h3
        obtain ⟨hne, hval, rfl⟩ := idHit_spec hc
        exact ⟨_, List.mem_map_of_mem _ hkv, hval, rfl⟩
      | none => left; rfl

/-- **C9** (confirmed).  Every opportunity built by `mapToOpportunity` has as
its id either the canonical 18-character form of a validated value found in
the record (and then a non-empty deep-link url), or the synthesized
placeholder `row-<index>` with an empty url. -/
theorem claim_C9 (row : JsRec) (idx : Nat) :
    (∃ v, v ∈ row.map Prod.snd ∧ SF.isValidOpportunityId v = true ∧
      (SF.mapToOpportunity row idx).id = SF.to18CharId (jsTrim v) ∧
      (SF.mapToOpportunity row idx).url ≠ "") ∨
    ((SF.mapToOpportunity row idx).id = "row-" ++ toString idx ∧
      (SF.mapToOpportunity row idx).url = "") := by
  rcases getOpportunityID_spec row with h | ⟨v, hv, hval, heq⟩
  · right
    constructor <;> simp [SF.mapToOpportunity, h]
  · left
    have hne : SF.getOpportunityID row ≠ "" := by
      rw [heq]
      exact to18_of_valid_ne hval
    refine ⟨v, hv, hval, ?_, ?_⟩
    · show (if SF.getOpportunityID row ≠ "" then SF.getOpportunityID row
        else "row-" ++ toString idx) = _
      rw [if_pos hne]
      exact heq
    · show (if SF.getOpportunityID row ≠ "" then
        "https://clarityai.lightning.force.com/lightning/r/Opportunity/" ++
          SF.getOpportunityID row ++ "/view" else "") ≠ ""
      rw [if_pos hne]
      intro hurl
      have hdata := congrArg String.data hurl
      rw [strAppend_data, strAppend_data] at hdata
      simp at hdata

/-! ## Round-trip lemmas for the CSV scanner (C2) -/

theorem replaceCRLF_cons_ne {c : Char} (rest : List Char) (hc : c ≠ '\r') :
    SF.replaceCRLF (c :: rest) = c :: SF.replaceCRLF rest := by
  cases rest with
  | nil => simp [SF.replaceCRLF, hc]
  | cons d rest => simp [SF.replaceCRLF, hc]

theorem replaceCRLF_of_no_cr {l : List Char} (h : ('\r' : Char) ∉ l) :
    SF.replaceCRLF l = l := by
  induction l with
  | nil => rfl
  | cons c rest ih =>
    have hc : c ≠ '\r' := fun hh => h (hh ▸ List.mem_cons_self _ _)
    rw [replaceCRLF_cons_ne rest hc, ih (fun hh => h (List.mem_cons_of_mem _ hh))]

theorem replaceCR_of_no_cr {l : List Char} (h : ('\r' : Char) ∉ l) :
    SF.replaceCR l = l := by
  unfold SF.replaceCR
  rw [show l.map (fun c => if c = '\r' then '\n' else c) = l.map id from
    List.map_congr_left (fun c hc => if_neg (by rintro rfl; exact h hc)), List.map_id]

theorem stripBOM_of_head {l : List Char} (h : l.head? ≠ some '﻿') :
    SF.stripBOM l = l := by
  cases l with
  | nil => rfl
  | cons c rest =>
    have hc : ¬ c = '﻿' := by simpa using h
    simp [SF.stripBOM, hc]

theorem cleanL_eq_self {l : List Char} (hBOM : l.head? ≠ some '﻿')
    (hCR : ('\r' : Char) ∉ l) : SF.cleanL l = l := by
  unfold SF.cleanL
  rw [stripBOM_of_head hBOM, replaceCRLF_of_no_cr hCR, replaceCR_of_no_cr hCR]

theorem mem_escQuotes {c : Char} {f : List Char} (h : c ∈ escQuotes f) :
    c = '"' ∨ c ∈ f := by
  induction f with
  | nil => simp [escQuotes] at h
  | cons d f ih =>
    unfold escQuotes at h
    by_cases hd : d = '"'
    · rw [if_pos hd] at h
      simp only [List.mem_cons] at h
      rcases h with h | h | h
      · exact Or.inl h
      · exact Or.inl h
      · rcases ih h with h' | h'
        · exact Or.inl h'
        · exact Or.inr (List.mem_cons_of_mem _ h')
    · rw [if_neg hd] at h
      simp only [List.mem_cons] at h
      rcases h with h | h
      · exact Or.inr (h ▸ List.mem_cons_self _ _)
      · rcases ih h with h' | h'
        · exact Or.inl h'
        · exact Or.inr (List.mem_cons_of_mem _ h')

theorem mem_encFieldL {c : Char} {f : List Char} (h : c ∈ encFieldL f) :
    c = '"' ∨ c ∈ f := by
  unfold encFieldL at h
  simp only [List.mem_cons, List.mem_append] at h
  rcases h with h | h | h
  · exact Or.inl h
  · exact mem_escQuotes h
  · exact Or.inl (by simpa using h)

theorem mem_encRowL {c : Char} {r : List (List Char)} (h : c ∈ encRowL r) :
    c = '"' ∨ c = ',' ∨ ∃ f ∈ r, c ∈ f := by
  induction r with
  | nil => simp [encRowL] at h
  | cons f r ih =>
    cases r with
    | nil =>
      rcases mem_encFieldL (by simpa [encRowL] using h) with h' | h'
      · exact Or.inl h'
      · exact Or.inr (Or.inr ⟨f, by simp, h'⟩)
    | cons f2 r2 =>
      rw [show encRowL (f :: f2 :: r2) = encFieldL f ++ ',' :: encRowL (f2 :: r2) from rfl,
        List.mem_append] at h
      rcases h with h | h
      · rcases mem_encFieldL h with h' | h'
        · exact Or.inl h'
        · exact Or.inr (Or.inr ⟨f, by simp, h'⟩)
      · rcases List.mem_cons.mp h with h' | h'
        · exact Or.inr (Or.inl h')
        · rcases ih h' with h2 | h2 | ⟨g, hg, hcg⟩
          · exact Or.inl h2
          · exact Or.inr (Or.inl h2)
          · exact Or.inr (Or.inr ⟨g, List.mem_cons_of_mem _ hg, hcg⟩)

theorem mem_encGridL {c : Char} {rs : List (List (List Char))} (h : c ∈ encGridL rs) :
    c = '"' ∨ c = ',' ∨ c = '\n' ∨ ∃ r ∈ rs, ∃ f ∈ r, c ∈ f := by
  induction rs with
  | nil => simp [encGridL] at h
  | cons r rs ih =>
    cases rs with
    | nil =>
      rcases mem_encRowL (show c ∈ encRowL r by simpa [encGridL] using h) with h' | h' | ⟨f, hf, hcf⟩
      · exact Or.inl h'
      · exact Or.inr (Or.inl h')
      · exact Or.inr (Or.inr (Or.inr ⟨r, by simp, f, hf, hcf⟩))
    | cons r2 rs2 =>
      rw [show encGridL (r :: r2 :: rs2) = encRowL r ++ '\n' :: encGridL (r2 :: rs2) from rfl,
        List.mem_append] at h
      rcases h with h | h
      · rcases mem_encRowL h with h' | h' | ⟨f, hf, hcf⟩
        · exact Or.inl h'
        · exact Or.inr (Or.inl h')
        · exact Or.inr (Or.inr (Or.inr ⟨r, by simp, f, hf, hcf⟩))
      · rcases List.mem_cons.mp h with h' | h'
        · exact Or.inr (Or.inr (Or.inl h'))
        · rcases ih h' with h2 | h2 | h2 | ⟨g, hg, f, hf, hcf⟩
          · exact Or.inl h2
          · exact Or.inr (Or.inl h2)
          · exact Or.inr (Or.inr (Or.inl h2))
          · exact Or.inr (Or.inr (Or.inr ⟨g, List.mem_cons_of_mem _ hg, f, hf, hcf⟩))

theorem encRowL_head {r : List (List Char)} (h : r ≠ []) :
    ∃ t, encRowL r = '"' :: t := by
  cases r with
  | nil => exact absurd rfl h
  | cons f r =>
    cases r with
    | nil => exact ⟨escQuotes f ++ ['"'], rfl⟩
    | cons f2 r2 => exact ⟨(escQuotes f ++ ['"']) ++ ',' :: encRowL (f2 :: r2), rfl⟩

/-! ### Step equations for `csvScan` -/

theorem csvScan_nil (iq : Bool) (cv : List Char) (cr : List String)
    (rows : List (List String)) :
    SF.csvScan [] iq cv cr rows =
      if cv ≠ [] ∨ cr ≠ [] then rows ++ [cr ++ [(⟨jsTrimL cv⟩ : String)]] else rows := rfl

theorem csvScan_esc (cs : List Char) (cv : List Char) (cr : List String)
    (rows : List (List String)) :
    SF.csvScan ('"' :: '"' :: cs) true cv cr rows =
      SF.csvScan cs true (cv ++ ['"']) cr rows := rfl

theorem csvScan_toggle_false (cs : List Char) (cv : List Char) (cr : List String)
    (rows : List (List String)) :
    SF.csvScan ('"' :: cs) false cv cr rows = SF.csvScan cs true cv cr rows := by
  cases cs with
  | nil => rfl
  | cons c cs' =>
    by_cases hc : c = '"'
    · subst hc; rfl
    · simp [SF.csvScan, hc]

theorem csvScan_toggle_true (cs : List Char) (cv : List Char) (cr : List String)
    (rows : List (List String)) (h : cs.head? ≠ some '"') :
    SF.csvScan ('"' :: cs) true cv cr rows = SF.csvScan cs false cv cr rows := by
  cases cs with
  | nil => rfl
  | cons c cs' =>
    have hc : c ≠ '"' := by simpa using h
    simp [SF.csvScan, hc]

theorem csvScan_comma (cs : List Char) (cv : List Char) (cr : List String)
    (rows : List (List String)) :
    SF.csvScan (',' :: cs) false cv cr rows =
      SF.csvScan cs false [] (cr ++ [(⟨jsTrimL cv⟩ : String)]) rows := rfl

theorem csvScan_newline (cs : List Char) (cv : List Char) (cr : List String)
    (rows : List (List String)) :
    SF.csvScan ('\n' :: cs) false cv cr rows =
      SF.csvScan cs false [] [] (rows ++ [cr ++ [(⟨jsTrimL cv⟩ : String)]]) := by
  have h : SF.csvScan ('\n' :: cs) false cv cr rows =
      SF.csvScan cs false [] []
        (if (cr ++ [(⟨jsTrimL cv⟩ : String)]).length > 0 then
          rows ++ [cr ++ [(⟨jsTrimL cv⟩ : String)]]
        else rows) := rfl
  rw [h, if_pos (by simp)]

theorem csvScan_other (c : Char) (cs : List Char) (iq : Bool) (cv : List Char)
    (cr : List String) (rows : List (List String))
    (h1 : c ≠ '"') (h2 : c ≠ ',') (h3 : c ≠ '\n') :
    SF.csvScan (c :: cs) iq cv cr rows = SF.csvScan cs iq (cv ++ [c]) cr rows := by
  simp [SF.csvScan, h1, h2, h3]

theorem csvScan_inq (c : Char) (cs : List Char) (cv : List Char) (cr : List String)
    (rows : List (List String)) (h : c ≠ '"') :
    SF.csvScan (c :: cs) true cv cr rows = SF.csvScan cs true (cv ++ [c]) cr rows := by
  by_cases h2 : c = ','
  · subst h2; rfl
  · by_cases h3 : c = '\n'
    · subst h3; rfl
    · exact csvScan_other c cs true cv cr rows h h2 h3

/-! ### Scanning an encoded field, row, and grid -/

theorem scan_escaped (f : List Char) (rest : List Char) (hrest : rest.head? ≠ some '"')
    (cv : List Char) (cr : List String) (rows : List (List String)) :
    SF.csvScan (escQuotes f ++ '"' :: rest) true cv cr rows =
      SF.csvScan rest false (cv ++ f) cr rows := by
  induction f generalizing cv with
  | nil =>
    show SF.csvScan ('"' :: rest) true cv cr rows = _
    rw [csvScan_toggle_true _ _ _ _ hrest]
    simp
  | cons c f ih =>
    by_cases hc : c = '"'
    · subst hc
      show SF.csvScan ('"' :: '"' :: (escQuotes f ++ '"' :: rest)) true cv cr rows = _
      rw [csvScan_esc, ih (cv ++ ['"'])]
      simp
    · have he : escQuotes (c :: f) = c :: escQuotes f := by simp [escQuotes, hc]
      rw [he, List.cons_append, csvScan_inq _ _ _ _ _ hc, ih (cv ++ [c])]
      simp

theorem scan_row (gs : List (List Char)) (g : List Char) (rest : List Char)
    (hrest : rest.head? ≠ some '"') (htrim : ∀ f ∈ gs, jsTrimL f = f)
    (cr : List String) (rows : List (List String)) :
    SF.csvScan (encRowL (gs ++ [g]) ++ rest) false [] cr rows =
      SF.csvScan rest false g (cr ++ gs.map (fun f => (⟨f⟩ : String))) rows := by
  induction gs generalizing cr with
  | nil =>
    have henc : encRowL ([] ++ [g]) ++ rest = '"' :: (escQuotes g ++ '"' :: rest) := by
      show ('"' :: (escQuotes g ++ ['"'])) ++ rest = _
      simp [List.append_assoc]
    rw [henc, csvScan_toggle_false, scan_escaped g rest hrest]
    simp
  | cons f gs ih =>
    have henc : encRowL ((f :: gs) ++ [g]) ++ rest =
        '"' :: (escQuotes f ++ '"' :: (',' :: (encRowL (gs ++ [g]) ++ rest))) := by
      have h1 : encRowL ((f :: gs) ++ [g]) = encFieldL f ++ ',' :: encRowL (gs ++ [g]) := by
        cases gs <;> rfl
      rw [h1]
      show (('"' :: (escQuotes f ++ ['"'])) ++ ',' :: encRowL (gs ++ [g])) ++ rest = _
      simp [List.append_assoc]
    rw [henc, csvScan_toggle_false, scan_escaped f _ (by simp), csvScan_comma]
    have hf : jsTrimL ([] ++ f) = f := by simpa using htrim f (by simp)
    rw [show (⟨jsTrimL ([] ++ f)⟩ : String) = ⟨f⟩ from congrArg _ hf,
      ih (fun q hq => htrim q (List.mem_cons_of_mem _ hq)) (cr ++ [(⟨f⟩ : String)])]
    simp

theorem scan_grid (rs : List (List (List Char))) (acc : List (List String))
    (hne : ∀ r ∈ rs, r ≠ [])
    (htrim : ∀ r ∈ rs, ∀ f ∈ r, jsTrimL f = f)
    (hlast : rs.getLast? ≠ some [[]]) :
    SF.csvScan (encGridL rs) false [] [] acc =
      acc ++ rs.map (fun r => r.map (fun f => (⟨f⟩ : String))) := by
  induction rs generalizing acc with
  | nil => simp [encGridL, csvScan_nil]
  | cons r rs ih =>
    have hrne : r ≠ [] := hne r (by simp)
    obtain ⟨gs, g, hr⟩ : ∃ gs g, r = gs ++ [g] :=
      ⟨r.dropLast, r.getLast hrne, (List.dropLast_append_getLast hrne).symm⟩
    have htg : ∀ f ∈ gs, jsTrimL f = f := fun f hf =>
      htrim r (by simp) f (by rw [hr]; exact List.mem_append_left _ hf)
    have hgg : jsTrimL g = g :=
      htrim r (by simp) g (by rw [hr]; exact List.mem_append_right _ (by simp))
    cases rs with
    | nil =>
      have henc : encGridL [r] = encRowL (gs ++ [g]) ++ [] := by
        rw [hr]
        simp [encGridL]
      rw [henc, scan_row gs g [] (by simp) htg [] acc, csvScan_nil]
      have hcond : g ≠ [] ∨ ([] ++ gs.map (fun f => (⟨f⟩ : String))) ≠ [] := by
        by_cases hgs : gs = []
        · left
          intro hg
          apply hlast
          rw [hr, hgs, hg]
          rfl
        · right
          simpa using hgs
      rw [if_pos hcond, hr]
      simp [hgg]
    | cons r2 rs2 =>
      have henc : encGridL (r :: r2 :: rs2) =
          encRowL (gs ++ [g]) ++ '\n' :: encGridL (r2 :: rs2) := by
        rw [hr]
        rfl
      rw [henc, scan_row gs g _ (by simp) htg [] acc, csvScan_newline,
        ih _ (fun q hq => hne q (List.mem_cons_of_mem _ hq))
          (fun q hq => htrim q (List.mem_cons_of_mem _ hq))
          (by rw [← List.getLast?_cons_cons]; exact hlast)]
      rw [hr]
      simp [hgg, List.append_assoc]

theorem encGridL_head {rs : List (List (List Char))} (hrs : rs ≠ [])
    (hne : ∀ r ∈ rs, r ≠ []) : ∃ t, encGridL rs = '"' :: t := by
  cases rs with
  | nil => exact absurd rfl hrs
  | cons r rs' =>
    obtain ⟨t, ht⟩ := encRowL_head (hne r (by simp))
    cases rs' with
    | nil => exact ⟨t, by simpa [encGridL] using ht⟩
    | cons r2 rs2 =>
      refine ⟨t ++ '\n' :: encGridL (r2 :: rs2), ?_⟩
      show encRowL r ++ '\n' :: encGridL (r2 :: rs2) = _
      rw [ht]
      rfl

/-- **C2** (counterexample).  The scanner trims each field, so the exact
round trip fails on a field with a leading space: encoding `[[" a"]]` and
re-parsing yields `[["a"]]`. -/
theorem claim_C2_counterexample :
    SF.parseCSVRows (csvEncode [[" a"]]) = [["a"]] ∧
    SF.parseCSVRows (csvEncode [[" a"]]) ≠ [[" a"]] := by
  constructor
  · rfl
  · decide

/-- **C2** (amended).  The quote-same encode/parse round trip — including
fields with embedded commas, newlines and doubled quotes — holds for every
row list whose rows are non-empty, whose fields are trim-invariant (no
leading/trailing whitespace) and carriage-return-free, and whose last row is
not the single empty field (which the end-of-input flush drops). -/
theorem claim_C2 (rows : List (List String))
    (hne : ∀ r ∈ rows, r ≠ [])
    (htrim : ∀ r ∈ rows, ∀ f ∈ r, jsTrim f = f)
    (hcr : ∀ r ∈ rows, ∀ f ∈ r, ('\r' : Char) ∉ f.data)
    (hlast : rows.getLast? ≠ some [""]) :
    SF.parseCSVRows (csvEncode rows) = rows := by
  have hdata : (csvEncode rows).data = encGridL (rows.map (fun r => r.map String.data)) :=
    rfl
  have hCR : ('\r' : Char) ∉ encGridL (rows.map (fun r => r.map String.data)) := by
    intro hm
    rcases mem_encGridL hm with h | h | h | ⟨r, hr, f, hf, hcf⟩
    · exact absurd h (by decide)
    · exact absurd h (by decide)
    · exact absurd h (by decide)
    · obtain ⟨r0, hr0, rfl⟩ := List.mem_map.mp hr
      obtain ⟨f0, hf0, rfl⟩ := List.mem_map.mp hf
      exact hcr r0 hr0 f0 hf0 hcf
  have hBOM : (encGridL (rows.map (fun r => r.map String.data))).head? ≠ some '﻿' := by
    cases hrows : rows with
    | nil => simp [encGridL]
    | cons r rows' =>
      obtain ⟨t, ht⟩ := encGridL_head
        (show ((r :: rows').map (fun r => r.map String.data)) ≠ [] by simp)
        (by
          intro q hq
          obtain ⟨q0, hq0, rfl⟩ := List.mem_map.mp hq
          simpa using hne q0 (hrows ▸ hq0))
      rw [ht]
      simp
  show SF.csvScan (SF.cleanL (csvEncode rows).data) false [] [] [] = rows
  rw [hdata, cleanL_eq_self hBOM hCR,
    scan_grid _ []
      (by
        intro q hq
        obtain ⟨q0, hq0, rfl⟩ := List.mem_map.mp hq
        simpa using hne q0 hq0)
      (by
        intro q hq f hf
        obtain ⟨q0, hq0, rfl⟩ := List.mem_map.mp hq
        obtain ⟨f0, hf0, rfl⟩ := List.mem_map.mp hf
        exact congrArg String.data (htrim q0 hq0 f0 hf0))
      (by
        rw [List.getLast?_map]
        intro hl
        rcases Option.map_eq_some'.mp hl with ⟨r0, hr0, hmap⟩
        have : r0 = [""] := by
          cases r0 with
          | nil => simp at hmap
          | cons f0 r0' =>
            cases r0' with
            | nil =>
              rw [List.map_cons, List.map_nil] at hmap
              have hf0 : f0.data = [] := by simpa using hmap
              have : f0 = "" := by
                cases f0
                simp at hf0
                rw [hf0]
              rw [this]
            | cons f1 r1 => simp at hmap
        apply hlast
        rw [← this]
        exact hr0)]
  rw [List.nil_append, List.map_map]
  have hid : ∀ r : List String,
      ((fun r : List (List Char) => r.map (fun f => (⟨f⟩ : String))) ∘
        (fun r : List String => r.map String.data)) r = r := by
    intro r
    show (r.map String.data).map (fun f => (⟨f⟩ : String)) = r
    rw [List.map_map]
    exact List.map_congr_left (fun f _ => rfl) |>.trans (List.map_id r)
  exact (List.map_congr_left (fun r _ => hid r)).trans (List.map_id rows)

/-- **C2** (witness): exact round trip for a grid with an embedded comma, an
embedded newline, a doubled quote, and an empty trailing field. -/
theorem claim_C2_witness :
    SF.parseCSVRows (csvEncode [["a,b", "c\nd"], ["q\"q", ""]]) =
      [["a,b", "c\nd"], ["q\"q", ""]] := by
  apply claim_C2 <;> decide

/-! ## Embedding of the route variant `src/unnamed/part_000`

The earlier Salesforce route: API-key fetch first, then service-account JWT,
then the public CSV export with per-URL retries.  Network effects are
modelled by outcome oracles: each authenticated fetch is a `FetchRes`
(`thrown` models a rejected promise), and each of the (up to 3 URLs × 2
attempts) CSV HTTP attempts consumes the next `HttpOutcome` in order — the
1-second inter-attempt delay has no observable effect on the result. -/

/-- `l.map f` with the index passed to `f`, as JS `Array.prototype.map` does
for a 2-argument callback. -/
def mapIdxFrom {α β : Type} (n : Nat) (f : Nat → α → β) : List α → List β
  | [] => []
  | a :: as => f n a :: mapIdxFrom (n + 1) f as

/-- The JSON payload the route handler returns (`error` is present only on
the failure paths). -/
structure SFResponse where
  error : Option String
  dueDiligence : List Opportunity
  standingApart : List Opportunity
  totalDueDiligence : Nat
  totalStandingApart : Nat
  configured : Bool
  source : String
deriving DecidableEq

namespace V0

/-- The environment variables the route reads (`undefined` = `none`). -/
structure Env where
  email : Option String
  key : Option String

/-- JS truthiness of `process.env.X`: `undefined` and `""` are falsy. -/
def truthyOpt : Option String → Bool
  | none => false
  | some s => s ≠ ""

/-- Outcome of an awaited external call: a value, or a rejected promise. -/
inductive FetchRes (α : Type) where
  | ok (v : α)
  | thrown
deriving DecidableEq

/-- Outcome of one CSV HTTP attempt. -/
inductive HttpOutcome where
  | thrown
  | notOk
  | body (s : String)
deriving DecidableEq

/-- Embedding of `text.split("\n")` (part_000 line 80). -/
def splitNL : List Char → List Char → List String
  | [], cur => [(⟨cur⟩ : String)]
  | '\n' :: rest, cur => (⟨cur⟩ : String) :: splitNL rest []
  | c :: rest, cur => splitNL rest (cur ++ [c])

/-- Per-line field scanner `parseCSVRow` (part_000 lines 54–77): like the
full scanner but with no newline handling and no BOM/CRLF normalization. -/
def rowScan : List Char → Bool → List Char → List String → List String
  | [], _, cur, res => res ++ [(⟨jsTrimL cur⟩ : String)]
  | '"' :: '"' :: cs, true, cur, res => rowScan cs true (cur ++ ['"']) res
  | '"' :: cs, iq, cur, res => rowScan cs (!iq) cur res
  | ',' :: cs, false, cur, res => rowScan cs false [] (res ++ [(⟨jsTrimL cur⟩ : String)])
  | c :: cs, iq, cur, res => rowScan cs iq (cur ++ [c]) res

/-- Embedding of `parseCSVRow`. -/
def parseCSVRow (row : String) : List String := rowScan row.data false [] []

/-- Embedding of part_000's `parseCSV` (lines 79–92): split into non-blank
lines, parse each; record building is the same unguarded header `forEach` as
`rowsToRecords`. -/
def parseCSV (text : String) : List JsRec :=
  let lines := (splitNL text.data []).filter (fun line => jsTrim line ≠ "")
  if lines.length < 2 then []
  else
    let headers := parseCSVRow (lines.getD 0 "")
    (lines.drop 1).map (fun line => SF.rawRecordOfRow headers (parseCSVRow line))

/-- Embedding of part_000's `rowsToRecords` (lines 137–147); identical record
building to the route.ts version. -/
def rowsToRecords (raw : List (List String)) : List JsRec :=
  if raw.length < 2 then []
  else (raw.drop 1).map (fun values => SF.rawRecordOfRow (raw.getD 0 []) values)

/-- Embedding of part_000's variadic `findColumn` (lines 149–168): exact
phase requires a truthy value (else falls through to the next candidate);
partial phase checks the substring relation in both directions. -/
def findColumn (row : JsRec) (candidates : List String) : String :=
  match candidates.findSome? (fun cand =>
      match (row.map (·.1)).find? (fun k => SF.keyNorm k = SF.keyNorm cand) with
      | some k => if lookupVal row k ≠ "" then some (lookupVal row k) else none
      | none => none) with
  | some v => v
  | none =>
    match candidates.findSome? (fun cand =>
        match (row.map (·.1)).find? (fun k =>
            occursIn (SF.keyNorm k).data (SF.keyNorm cand).data ||
              occursIn (SF.keyNorm cand).data (SF.keyNorm k).data) with
        | some k => if lookupVal row k ≠ "" then some (lookupVal row k) else none
        | none => none) with
    | some v => v
    | none => ""

/-- Embedding of part_000's `parseAmount` (lines 170–175): keeps only
digits, `.`, `-` (commas dropped, no European handling). -/
def parseAmount (value : String) : Option ℚ :=
  if value = "" then none
  else parseFloatQ ⟨value.data.filter (fun c => c.isDigit || c = '.' || c = '-')⟩

/-- The access-method candidates of `hasApiOrDatafeed` (6 names). -/
def accessMethodCandidates : List String :=
  ["Access Method (L)", "Access_Method_L__c", "Access Method L", "Access Method",
   "Access_Method", "AccessMethod"]

/-- The access-method candidates of the `hasAccessMethodColumn` check
(5 names — no `"AccessMethod"`). -/
def hasAccessCandidates : List String :=
  ["Access Method (L)", "Access_Method_L__c", "Access Method L", "Access Method",
   "Access_Method"]

/-- Embedding of `hasApiOrDatafeed` (lines 177–192). -/
def hasApiOrDatafeed (row : JsRec) : Bool :=
  let accessMethodL := jsToLower (findColumn row accessMethodCandidates)
  strIncludes accessMethodL "api" || strIncludes accessMethodL "data feed" ||
    strIncludes accessMethodL "datafeed"

/-- Embedding of part_000's `mapToOpportunity` (lines 194–238). -/
def mapToOpportunity (row : JsRec) (idx : Nat) : Opportunity :=
  { id :=
      (if findColumn row ["Opportunity ID", "Id", "ID"] ≠ "" then
        findColumn row ["Opportunity ID", "Id", "ID"]
      else "row-" ++ toString idx)
    name := findColumn row ["Opportunity Name", "Name", "Opportunity"]
    stageName := findColumn row ["Stage", "StageName", "Stage Name"]
    accessMethod := findColumn row ["Access Method (L)", "Access_Method_L__c",
      "Access Method L", "Access Method", "Access_Method", "Product modules"]
    amount := parseAmount (findColumn row ["Opp ARR (Master) (converted)", "Amount",
      "Opp Amount", "Total Amount"])
    closeDate := findColumn row ["Close Date", "CloseDate", "Close"]
    accountName := findColumn row ["Account Name", "Account", "AccountName"]
    ownerName := findColumn row ["Opportunity Owner", "Owner", "Owner Name", "OwnerName"]
    probability := parseAmount (findColumn row ["Probability", "Probability (%)", "Win %"])
    createdDate := findColumn row ["Contract Start Date", "Created Date", "CreatedDate",
      "Created"]
    lastModifiedDate := findColumn row ["Last Modified Date", "LastModifiedDate",
      "Last Modified", "Modified Date"]
    url :=
      if findColumn row ["Opportunity ID", "Id", "ID"] ≠ "" then
        "https://clarityai.lightning.force.com/" ++ findColumn row ["Opportunity ID", "Id", "ID"]
      else "" }

/-- Embedding of `fetchViaAPIKey`'s self-disqualification (lines 11–22): key
must be truthy, must not contain the private-key marker, and must be at most
100 characters; otherwise the HTTP request (the oracle) decides. -/
def fetchViaAPIKey (env : Env) (outcome : FetchRes (Option (List (List String)))) :
    FetchRes (Option (List (List String))) :=
  if truthyOpt env.key = false then .ok none
  else
    let apiKey := env.key.getD ""
    if strIncludes apiKey "BEGIN PRIVATE KEY" = true ∨ apiKey.length > 100 then .ok none
    else outcome

/-- Embedding of `fetchViaServiceAccount`'s self-disqualification (lines
27–49): email and key must be truthy, and the key must contain the marker or
be at least 100 characters; otherwise the JWT call (the oracle) decides. -/
def fetchViaServiceAccount (env : Env)
    (outcome : FetchRes (Option (List (List String)))) :
    FetchRes (Option (List (List String))) :=
  if truthyOpt env.email = false ∨ truthyOpt env.key = false then .ok none
  else
    let rawKey := env.key.getD ""
    if strIncludes rawKey "BEGIN PRIVATE KEY" = false ∧ rawKey.length < 100 then .ok none
    else outcome

/-- The HTML-interstitial test of `fetchSingleCSV` (line 106). -/
def looksHTML (s : String) : Bool :=
  strStartsWith (jsTrim s) "<!" || strStartsWith (jsTrim s) "<html"

/-- Embedding of `fetchSingleCSV` (lines 94–110) on one attempt outcome. -/
def fetchSingleCSV (o : HttpOutcome) : FetchRes (Option (List JsRec)) :=
  match o with
  | .thrown => .thrown
  | .notOk => .ok none
  | .body s =>
    if looksHTML s then .ok none
    else
      let rows := parseCSV s
      .ok (if rows.length > 0 then some rows else none)

/-- Embedding of `fetchViaCSV` (lines 112–132): consume attempt outcomes in
order, returning the first non-empty row set; thrown attempts and null
results both advance to the next attempt. -/
def fetchViaCSV : List HttpOutcome → Option (List JsRec)
  | [] => none
  | o :: rest =>
    match fetchSingleCSV o with
    | .ok (some rows) => some rows
    | _ => fetchViaCSV rest

/-- The "nothing worked" response of `GET` (lines 279–292). -/
def noneResponse : SFResponse :=
  { error := some "No data available from Google Sheets."
    dueDiligence := []
    standingApart := []
    totalDueDiligence := 0
    totalStandingApart := 0
    configured := false
    source := "none" }

/-- The filtering and response building of `GET` (lines 294–329). -/
def buildResponse (rows : List JsRec) (source : String) : SFResponse :=
  let hasAccessMethodColumn := rows.any (fun row => findColumn row hasAccessCandidates ≠ "")
  let dueDiligence := rows.filter (fun row =>
    let stage := jsToLower (findColumn row ["Stage", "StageName", "Stage Name"])
    let stageMatch := strIncludes stage "due diligence"
    if hasAccessMethodColumn = false then stageMatch
    else stageMatch && hasApiOrDatafeed row)
  let standingApart := rows.filter (fun row =>
    let stage := jsToLower (findColumn row ["Stage", "StageName", "Stage Name"])
    let stageMatch := strIncludes stage "standing apart"
    if hasAccessMethodColumn = false then stageMatch
    else stageMatch && hasApiOrDatafeed row)
  { error := none
    dueDiligence := mapIdxFrom 0 (fun i row => mapToOpportunity row i) dueDiligence
    standingApart := mapIdxFrom 0 (fun i row => mapToOpportunity row i) standingApart
    totalDueDiligence := dueDiligence.length
    totalStandingApart := standingApart.length
    configured := true
    source := source }

/-- Embedding of `GET` (part_000 lines 243–344): the three-step cascade with
each authenticated step in a `try`/`catch`, then the final empty check. -/
def GETmodel (env : Env) (apiRes saRes : FetchRes (Option (List (List String))))
    (csvOutcomes : List HttpOutcome) : SFResponse :=
  let s1 : Option (List JsRec) × String :=
    match fetchViaAPIKey env apiRes with
    | .ok (some grid) =>
      if grid.length > 1 then (some (rowsToRecords grid), "api-key") else (none, "")
    | _ => (none, "")
  let s2 : Option (List JsRec) × String :=
    if s1.1 = none ∨ s1.1 = some [] then
      match fetchViaServiceAccount env saRes with
      | .ok (some grid) =>
        if grid.length > 1 then (some (rowsToRecords grid), "service-account") else s1
      | _ => s1
    else s1
  let s3 : Option (List JsRec) × String :=
    if s2.1 = none ∨ s2.1 = some [] then (fetchViaCSV csvOutcomes, "csv") else s2
  match s3.1 with
  | none => noneResponse
  | some rows =>
    if rows.length = 0 then noneResponse
    else buildResponse rows s3.2

end V0

/-! ## Source-resolution claims (C1) -/

/-- The API-key method's self-disqualification conditions, as the code checks
them (part_000 lines 13–14): key missing/empty, containing the private-key
marker, or longer than 100 characters. -/
def apiPrereqAbsent (env : V0.Env) : Prop :=
  V0.truthyOpt env.key = false ∨
  strIncludes (env.key.getD "") "BEGIN PRIVATE KEY" = true ∨
  (env.key.getD "").length > 100

/-- The service-account method's self-disqualification conditions, as the
code checks them (part_000 lines 30–31): email or key missing/empty, or key
material that both lacks the marker and is shorter than 100 characters. -/
def saPrereqAbsent (env : V0.Env) : Prop :=
  V0.truthyOpt env.email = false ∨ V0.truthyOpt env.key = false ∨
  (strIncludes (env.key.getD "") "BEGIN PRIVATE KEY" = false ∧
    (env.key.getD "").length < 100)

/-- Modelled from the claim/spec wording, for comparison with the code: the
claim calls the service-account prerequisites "absent" when there is no
identity email or the key material lacks the private-key marker. -/
def specSAPrereqAbsent (env : V0.Env) : Prop :=
  V0.truthyOpt env.email = false ∨
  strIncludes (env.key.getD "") "BEGIN PRIVATE KEY" = false

/-- Modelled from the claim/spec wording: the API-key prerequisites are
"absent" when the key is missing, contains the private-key marker, or is over
the length limit. -/
def specAPIPrereqAbsent (env : V0.Env) : Prop :=
  V0.truthyOpt env.key = false ∨
  strIncludes (env.key.getD "") "BEGIN PRIVATE KEY" = true ∨
  (env.key.getD "").length > 100

/-- A CSV attempt that produces nothing: a thrown fetch, a non-OK response,
or a body the HTML test rejects. -/
def csvAttemptNothing (o : V0.HttpOutcome) : Prop :=
  o = .thrown ∨ o = .notOk ∨ ∃ s, o = .body s ∧ V0.looksHTML s = true

theorem fetchViaAPIKey_absent {env : V0.Env}
    (o : V0.FetchRes (Option (List (List String)))) (h : apiPrereqAbsent env) :
    V0.fetchViaAPIKey env o = .ok none := by
  unfold V0.fetchViaAPIKey
  rcases h with h | h | h
  · rw [if_pos h]
  · by_cases hk : V0.truthyOpt env.key = false
    · rw [if_pos hk]
    · rw [if_neg hk, if_pos (Or.inl h)]
  · by_cases hk : V0.truthyOpt env.key = false
    · rw [if_pos hk]
    · rw [if_neg hk, if_pos (Or.inr h)]

theorem fetchViaSA_absent {env : V0.Env}
    (o : V0.FetchRes (Option (List (List String)))) (h : saPrereqAbsent env) :
    V0.fetchViaServiceAccount env o = .ok none := by
  unfold V0.fetchViaServiceAccount
  rcases h with h | h | h
  · rw [if_pos (Or.inl h)]
  · rw [if_pos (Or.inr h)]
  · by_cases he : V0.truthyOpt env.email = false ∨ V0.truthyOpt env.key = false
    · rw [if_pos he]
    · rw [if_neg he, if_pos h]

theorem fetchViaCSV_nothing {outcomes : List V0.HttpOutcome}
    (h : ∀ o ∈ outcomes, csvAttemptNothing o) : V0.fetchViaCSV outcomes = none := by
  induction outcomes with
  | nil => rfl
  | cons o rest ih =>
    have ho := h o (by simp)
    have hrest := ih (fun q hq => h q (List.mem_cons_of_mem _ hq))
    rcases ho with h1 | h1 | ⟨s, h1, h2⟩ <;> subst h1
    · exact hrest
    · exact hrest
    · show (match V0.fetchSingleCSV (.body s) with
        | .ok (some rows) => some rows
        | _ => V0.fetchViaCSV rest) = none
      rw [show V0.fetchSingleCSV (.body s) = .ok none by simp [V0.fetchSingleCSV, h2]]
      exact hrest

theorem fetchViaCSV_some_ne {outcomes : List V0.HttpOutcome} {recs : List JsRec}
    (h : V0.fetchViaCSV outcomes = some recs) : recs ≠ [] := by
  induction outcomes with
  | nil => simp [V0.fetchViaCSV] at h
  | cons o rest ih =>
    by_cases hs : ∃ rows, V0.fetchSingleCSV o = .ok (some rows)
    · obtain ⟨rows, hrows⟩ := hs
      have hred : V0.fetchViaCSV (o :: rest) = some rows := by
        show (match V0.fetchSingleCSV o with
          | .ok (some rows) => some rows
          | _ => V0.fetchViaCSV rest) = some rows
        rw [hrows]
      rw [hred] at h
      rw [Option.some.injEq] at h
      subst h
      -- rows comes from the `rows.length > 0` branch of fetchSingleCSV
      cases o with
      | thrown => simp [V0.fetchSingleCSV] at hrows
      | notOk => simp [V0.fetchSingleCSV] at hrows
      | body s =>
        simp only [V0.fetchSingleCSV] at hrows
        split_ifs at hrows with hHTML hlen
        · simp at hrows
        · rw [V0.FetchRes.ok.injEq, Option.some.injEq] at hrows
          subst hrows
          intro hnil
          rw [hnil] at hlen
          simp at hlen
        · simp at hrows
    · have hred : V0.fetchViaCSV (o :: rest) = V0.fetchViaCSV rest := by
        show (match V0.fetchSingleCSV o with
          | .ok (some rows) => some rows
          | _ => V0.fetchViaCSV rest) = _
        cases hf : V0.fetchSingleCSV o with
        | thrown => rfl
        | ok v =>
          cases v with
          | none => rfl
          | some rows => exact absurd ⟨rows, hf⟩ hs
      rw [hred] at h
      exact ih h

/-- **C1** (amended).  When the service-account method's prerequisites are
absent per the code's own checks (no email, no key, or key material that both
lacks the private-key marker and is under 100 characters) and the API-key
method's prerequisites are absent (key missing, containing the marker, or
over 100 characters), `GET` falls through directly to the public CSV export:
if every CSV attempt fails or returns an HTML body, the result is exactly the
well-formed `"none"` response with empty buckets and zero totals (never a
thrown error); if a CSV attempt yields rows, the response is tagged
`"csv"`. -/
theorem claim_C1 (env : V0.Env) (apiRes saRes : V0.FetchRes (Option (List (List String))))
    (csvOutcomes : List V0.HttpOutcome)
    (hAPI : apiPrereqAbsent env) (hSA : saPrereqAbsent env) :
    ((∀ o ∈ csvOutcomes, csvAttemptNothing o) →
      V0.GETmodel env apiRes saRes csvOutcomes = V0.noneResponse) ∧
    (∀ recs, V0.fetchViaCSV csvOutcomes = some recs →
      (V0.GETmodel env apiRes saRes csvOutcomes).source = "csv" ∧
      (V0.GETmodel env apiRes saRes csvOutcomes).configured = true ∧
      (V0.GETmodel env apiRes saRes csvOutcomes).error = none) := by
  have hred : V0.GETmodel env apiRes saRes csvOutcomes =
      (match V0.fetchViaCSV csvOutcomes with
       | none => V0.noneResponse
       | some rows =>
         if rows.length = 0 then V0.noneResponse else V0.buildResponse rows "csv") := by
    unfold V0.GETmodel
    rw [fetchViaAPIKey_absent apiRes hAPI, fetchViaSA_absent saRes hSA]
    rfl
  constructor
  · intro hcsv
    rw [hred, fetchViaCSV_nothing hcsv]
  · intro recs hrecs
    have hne := fetchViaCSV_some_ne hrecs
    have hlen : ¬ recs.length = 0 := fun h0 => hne (List.length_eq_zero.mp h0)
    have hbuild : V0.GETmodel env apiRes saRes csvOutcomes = V0.buildResponse recs "csv" := by
      rw [hred, hrecs]
      show (if recs.length = 0 then V0.noneResponse else V0.buildResponse recs "csv") = _
      rw [if_neg hlen]
    rw [hbuild]
    exact ⟨rfl, rfl, rfl⟩

/-- A 101-character key without the private-key marker: long enough that the
API-key method disqualifies it, yet markerless, so the claim counts the
service-account prerequisites as absent while the code still runs the
service-account fetch. -/
def k101 : String := ⟨List.replicate 101 'x'⟩

/-- **C1** (counterexample).  Under the claim's reading of "prerequisites
absent" (service-account: no email *or* key lacking the marker; API-key: key
missing, marker, or over the limit), resolution does not fall through to CSV:
with an email and the markerless 101-character key both claim conditions
hold, yet the service-account method is still eligible (the code only skips
it when the markerless key is also under 100 characters), and the response is
tagged `"service-account"` although a CSV attempt would yield rows. -/
theorem claim_C1_counterexample :
    specSAPrereqAbsent ⟨some "svc@example.com", some k101⟩ ∧
    specAPIPrereqAbsent ⟨some "svc@example.com", some k101⟩ ∧
    V0.fetchViaCSV [.body "Stage\ndue diligence"] ≠ none ∧
    (V0.GETmodel ⟨some "svc@example.com", some k101⟩ (.ok none)
      (.ok (some [["Stage"], ["x"]])) [.body "Stage\ndue diligence"]).source =
      "service-account" ∧
    ("service-account" : String) ≠ "csv" := by
  exact ⟨Or.inr (by decide), Or.inr (Or.inr (by decide)), by decide, by decide, by decide⟩

/-- **C1** (witness): with no credentials at all, a failed CSV cascade gives
exactly the `"none"` response, and a CSV body with rows gives source
`"csv"`. -/
theorem claim_C1_witness :
    V0.GETmodel ⟨none, none⟩ .thrown .thrown [.notOk, .notOk] = V0.noneResponse ∧
    (V0.GETmodel ⟨none, none⟩ .thrown .thrown [.body "Stage\ndue diligence"]).source =
      "csv" := by
  constructor
  · refine (claim_C1 ⟨none, none⟩ .thrown .thrown [.notOk, .notOk]
      (Or.inl rfl) (Or.inl rfl)).1 ?_
    intro o ho
    have ho2 : o = V0.HttpOutcome.notOk := by
      rcases List.mem_cons.mp ho with h | h
      · exact h
      · simpa using h
    subst ho2
    exact Or.inr (Or.inl rfl)
  · exact ((claim_C1 ⟨none, none⟩ .thrown .thrown [.body "Stage\ndue diligence"]
      (Or.inl rfl) (Or.inl rfl)).2 [[("Stage", "due diligence")]] (by decide)).1
